import Mathlib

/-!
Verification of the `broadcast-channel` crate (`src/sync.rs`).

The Rust source is a lock-free broadcast channel: a singly linked chain of
nodes (`Node { value, next, readers }`) shared through a `BroadcastChannel`
holding `head`, `tail` and a global `readers` counter.  We shallowly embed
the sequential behaviour of the code: the heap of nodes is a list indexed by
allocation order (node 0 is the sentinel made by `BroadcastChannel::new`),
pointers are node indices (`Option Nat`, `none` being the null pointer), and
`usize` arithmetic is `Nat` modulo `2 ^ 64`.  `drop_in_place` calls are
recorded in a `freed` list so that reclamation (exactly-once freeing, double
frees) can be stated; the node data itself is kept in the heap list, which
matches the code reading through a pointer regardless of whether the pointee
has been dropped.

Each operation is translated clause by clause from `src/sync.rs`:
`BroadcastChannel::new` (lines 27-44), `BroadcastChannel::send` (46-76,
uncontended CAS path plus the link step with its `assert_ne!`),
`Drop for BroadcastChannel` (79-90), `Receiver::new` (126-131),
`Clone for Receiver` (134-151, stable-head path), and
`Iterator::next for Receiver` (156-173).
-/

namespace Broadcast

/-- Number of values of `usize` (the source is built for 64-bit targets). -/
def USIZE : Nat := 2 ^ 64

/-- Wrapping decrement of a `usize`, the arithmetic effect of
`AtomicUsize::fetch_sub(1)`: `0` wraps around to `2 ^ 64 - 1`. -/
def usizeDec (n : Nat) : Nat := (n + (USIZE - 1)) % USIZE

/-- One list node, from `struct Node<T>` (src/sync.rs lines 92-96):
`value: Option<T>`, `next: AtomicPtr<Node<T>>` (a node index or null),
`readers: AtomicUsize`. -/
structure Node (α : Type) where
  value : Option α
  next : Option Nat
  readers : Nat
deriving Repr, DecidableEq

/-- The shared channel state, from `struct BroadcastChannel<T>`
(src/sync.rs lines 19-24) together with the allocation history: `nodes` is
the heap, indexed by allocation order; `freed` records every
`ptr::drop_in_place` in call order. -/
structure Channel (α : Type) where
  nodes : List (Node α)
  head : Nat
  tail : Option Nat
  readers : Nat
  freed : List Nat
deriving Repr, DecidableEq

/-- A receiver is its cursor, the `current: *mut Node<T>` field of
`struct Receiver<T>` (src/sync.rs lines 120-123). -/
structure Receiver where
  current : Nat
deriving Repr, DecidableEq

/-- `BroadcastChannel::new` (src/sync.rs lines 27-44): the global `readers`
counter starts at `0` (line 33), and a sentinel node with `value: None`,
null `next` and `readers: 1` is stored as both `head` and `tail`. -/
def Channel.new {α : Type} : Channel α :=
  { nodes := [{ value := none, next := none, readers := 1 }]
    head := 0
    tail := some 0
    readers := 0
    freed := [] }

/-- `Receiver::new` (src/sync.rs lines 126-131): the receiver starts with
`current` equal to the channel's head. -/
def Receiver.new {α : Type} (s : Channel α) : Receiver :=
  { current := s.head }

/-- The link step of `BroadcastChannel::send` (src/sync.rs lines 63-73):
after the head CAS has succeeded, the old head's `next` is CASed from null
to the new node, and the result is fed to
`assert_ne!(old_node.next.compare_and_swap(null, node), node)`.
`compare_and_swap` returns the previous value, so the assertion fires
(first component `true`) exactly when that previous value *is* the new
node's address; a previous value that is some other non-null pointer passes
the assertion and the failed CAS leaves `next` unchanged. -/
def linkStep {α : Type} (nodes : List (Node α)) (oldHead newId : Nat) :
    Bool × List (Node α) :=
  match nodes[oldHead]? with
  | none => (false, nodes)
  | some n =>
    match n.next with
    | none => (false, nodes.set oldHead { n with next := some newId })
    | some x => (decide (x = newId), nodes)

/-- `BroadcastChannel::send` (src/sync.rs lines 46-76), sequential
(uncontended) execution: allocate a node holding `Some(value)` with
`readers` seeded from the current global `readers` counter (line 50), win
the head CAS, then run the link step on the previous head.  The returned
`Bool` is whether the `assert_ne!` of the link step fired (a panic). -/
def Channel.sendFull {α : Type} (s : Channel α) (v : α) : Bool × Channel α :=
  let newId := s.nodes.length
  let nodes1 := s.nodes ++ [{ value := some v, next := none, readers := s.readers }]
  let link := linkStep nodes1 s.head newId
  (link.1, { s with nodes := link.2, head := newId })

/-- `Sender::send` on the ordinary path (no assertion failure). -/
def Channel.send {α : Type} (s : Channel α) (v : α) : Channel α :=
  (s.sendFull v).2

/-- `Sender::send_all` (src/sync.rs lines 112-116): send each element in
sequence order. -/
def Channel.sendAll {α : Type} (s : Channel α) (vs : List α) : Channel α :=
  vs.foldl Channel.send s

/-- `Clone for Receiver` (src/sync.rs lines 134-151) on the stable-head
path (the only path in a sequential execution): the global `readers`
counter is `fetch_add(1)`ed and the clone's cursor is set to the observed
head.  No node's `readers` field is touched. -/
def Receiver.clone {α : Type} (_r : Receiver) (s : Channel α) :
    Receiver × Channel α :=
  ({ current := s.head }, { s with readers := (s.readers + 1) % USIZE })

/-- Dropping a `Receiver`: the source declares no `Drop` implementation for
`Receiver` (src/sync.rs lines 119-151), so dropping one only releases its
`Arc` reference to the channel; no node's `readers` count and not the
global `readers` counter is modified. -/
def Receiver.dropEffect {α : Type} (_r : Receiver) (s : Channel α) : Channel α :=
  s

/-- `Iterator::next for Receiver` (src/sync.rs lines 156-173): load the
current node's `next`; if null return `None` with nothing changed;
otherwise move the cursor, clone the value stored at the successor,
`fetch_sub(1)` the vacated node's `readers`, and if the value before the
decrement was `1`, `drop_in_place` the vacated node and CAS `tail` from the
vacated node to the new cursor. -/
def Receiver.next {α : Type} (r : Receiver) (s : Channel α) :
    Option α × Receiver × Channel α :=
  match s.nodes[r.current]? with
  | none => (none, r, s)
  | some oldNode =>
    match oldNode.next with
    | none => (none, r, s)
    | some cur =>
      let value : Option α :=
        match s.nodes[cur]? with
        | some n => n.value
        | none => none
      let nodes' := s.nodes.set r.current { oldNode with readers := usizeDec oldNode.readers }
      if oldNode.readers = 1 then
        (value, { current := cur },
          { s with nodes := nodes'
                   freed := s.freed ++ [r.current]
                   tail := if s.tail = some r.current then some cur else s.tail })
      else
        (value, { current := cur }, { s with nodes := nodes' })

/-- Repeated `next` calls, collecting the returned options in order. -/
def readN {α : Type} (r : Receiver) (s : Channel α) :
    Nat → List (Option α) × Receiver × Channel α
  | 0 => ([], r, s)
  | n + 1 =>
    let step := r.next s
    let rest := readN step.2.1 step.2.2 n
    (step.1 :: rest.1, rest.2)

/-- The loop body of `Drop for BroadcastChannel` (src/sync.rs lines 79-90),
with fuel: while `tail` is non-null, advance `tail` to the tail node's
`next` and `drop_in_place` the old tail. -/
def teardownGo {α : Type} : Nat → Channel α → Channel α
  | 0, s => s
  | fuel + 1, s =>
    match s.tail with
    | none => s
    | some t =>
      match s.nodes[t]? with
      | none => s
      | some n => teardownGo fuel { s with tail := n.next, freed := s.freed ++ [t] }

/-- `Drop for BroadcastChannel`: run the teardown walk.  The fuel
`s.nodes.length + 1` is enough for every chain whose `next` indices
strictly increase, which every state built by the operations above
satisfies. -/
def Channel.teardown {α : Type} (s : Channel α) : Channel α :=
  teardownGo (s.nodes.length + 1) s

end Broadcast

namespace Broadcast

/-!
## The sequential chain invariant

In every state reached by `Channel.new` followed by sends, clones and
receiver advances, the heap is one chain in allocation order: node `i`
links to node `i + 1`, the newest node links nowhere and is the head, the
sentinel (node `0`) holds no value, and node `i + 1` holds the `i`-th
value sent so far.
-/

/-- `SeqState s ws` says the channel `s` holds exactly the chain produced
by sending the values `ws`, in order, on a fresh channel (whatever the
reader counts, `tail` and the free record are). -/
def SeqState {α : Type} (s : Channel α) (ws : List α) : Prop :=
  s.nodes.length = ws.length + 1
  ∧ s.head = ws.length
  ∧ (∀ i, i ≤ ws.length →
      s.nodes[i]?.map Node.next = some (if i < ws.length then some (i + 1) else none))
  ∧ (∀ i, i < ws.length → s.nodes[i + 1]?.map Node.value = some ws[i]?)

theorem seqState_new {α : Type} : SeqState (Channel.new (α := α)) [] := by
  refine ⟨rfl, rfl, ?_, ?_⟩
  · intro i hi
    have h0 : i = 0 := Nat.le_zero.mp hi
    subst h0
    rfl
  · intro i hi
    exact absurd hi (Nat.not_lt_zero i)

theorem seqState_send {α : Type} {s : Channel α} {ws : List α}
    (h : SeqState s ws) (v : α) : SeqState (s.send v) (ws ++ [v]) := by
  obtain ⟨hlen, hhead, hnext, hval⟩ := h
  have hlt : ws.length < s.nodes.length := by omega
  have hh := hnext ws.length le_rfl
  rw [if_neg (lt_irrefl ws.length)] at hh
  obtain ⟨n, hn, hnn⟩ := Option.map_eq_some'.mp hh
  have hn1 : (s.nodes ++ [{ value := some v, next := none, readers := s.readers } ])[ws.length]?
      = some n := by
    rw [List.getElem?_append_left hlt]
    exact hn
  have hsend : s.send v =
      { s with
        nodes := (s.nodes ++ [({ value := some v, next := none, readers := s.readers } : Node α)]).set
          ws.length { n with next := some (ws.length + 1) }
        head := ws.length + 1 } := by
    simp only [Channel.send, Channel.sendFull, linkStep, hhead, hlen, hn1, hnn]
  have hget : ∀ j,
      ((s.nodes ++ [({ value := some v, next := none, readers := s.readers } : Node α)]).set
        ws.length { n with next := some (ws.length + 1) })[j]? =
      if j = ws.length then some { n with next := some (ws.length + 1) }
      else if j = ws.length + 1 then
        some ({ value := some v, next := none, readers := s.readers } : Node α)
      else s.nodes[j]? := by
    intro j
    rcases eq_or_ne j ws.length with rfl | hj1
    · rw [List.getElem?_set_self (by rw [List.length_append]; omega), if_pos rfl]
    · rw [List.getElem?_set_ne (Ne.symm hj1), if_neg hj1]
      rcases eq_or_ne j (ws.length + 1) with rfl | hj2
      · rw [if_pos rfl]
        have he : ws.length + 1 = s.nodes.length := hlen.symm
        rw [he]
        exact List.getElem?_concat_length s.nodes _
      · rw [if_neg hj2]
        rcases Nat.lt_or_ge j s.nodes.length with hlt2 | hge2
        · exact List.getElem?_append_left hlt2
        · rw [List.getElem?_append_right hge2, List.getElem?_eq_none hge2,
            List.getElem?_eq_none]
          simp only [List.length_singleton]
          omega
  rw [hsend]
  refine ⟨?_, ?_, ?_, ?_⟩
  · simp only [List.length_set, List.length_append, List.length_singleton, hlen]
  · simp only [List.length_append, List.length_singleton]
  · intro i hi
    rw [hget i]
    simp only [List.length_append, List.length_singleton] at hi ⊢
    rcases eq_or_ne i ws.length with rfl | hi1
    · rw [if_pos rfl, if_pos (by omega)]
      rfl
    · rw [if_neg hi1]
      rcases eq_or_ne i (ws.length + 1) with rfl | hi2
      · rw [if_pos rfl, if_neg (by omega)]
        rfl
      · have hilt : i < ws.length := by omega
        rw [if_neg hi2, if_pos (by omega)]
        have := hnext i (le_of_lt hilt)
        rw [if_pos hilt] at this
        exact this
  · intro i hi
    rw [hget (i + 1)]
    simp only [List.length_append, List.length_singleton] at hi
    rcases eq_or_ne (i + 1) ws.length with he | hi1
    · have hiw : i < ws.length := by omega
      rw [if_pos he, List.getElem?_append_left hiw]
      have h5 := hval i hiw
      rw [he, hn] at h5
      simpa using h5
    · rw [if_neg hi1]
      rcases eq_or_ne (i + 1) (ws.length + 1) with he2 | hi2
      · have hiw : i = ws.length := by omega
        subst hiw
        rw [if_pos rfl, List.getElem?_concat_length ws v]
        rfl
      · have hiw : i + 1 < ws.length := by omega
        rw [if_neg hi2, List.getElem?_append_left (by omega : i < ws.length)]
        exact hval i (by omega)

theorem getElem?_map_set {α : Type} {β : Type} {nodes : List (Node α)} {p : Nat}
    {n : Node α} (hn : nodes[p]? = some n) (m : Node α) (f : Node α → β)
    (hf : f m = f n) (i : Nat) :
    (nodes.set p m)[i]?.map f = nodes[i]?.map f := by
  rcases eq_or_ne p i with rfl | hne
  · obtain ⟨hp, -⟩ := List.getElem?_eq_some.mp hn
    rw [List.getElem?_set_self hp, hn]
    simp [hf]
  · rw [List.getElem?_set_ne hne]

/-- Advancing a receiver rewrites one node's `readers` field (and possibly
`tail` and the free record); the chain of values is untouched. -/
theorem seqState_set_readers {α : Type} {s : Channel α} {ws : List α}
    (h : SeqState s ws) {p : Nat} {n : Node α} (hn : s.nodes[p]? = some n)
    (c : Nat) (t : Option Nat) (f : List Nat) :
    SeqState
      { s with nodes := s.nodes.set p { n with readers := c }, tail := t, freed := f }
      ws := by
  obtain ⟨hlen, hhead, hnext, hval⟩ := h
  refine ⟨by simpa [List.length_set] using hlen, hhead, ?_, ?_⟩
  · intro i hi
    show (s.nodes.set p { n with readers := c })[i]?.map Node.next
        = some (if i < ws.length then some (i + 1) else none)
    rw [getElem?_map_set hn ({ n with readers := c }) Node.next rfl i]
    exact hnext i hi
  · intro i hi
    show (s.nodes.set p { n with readers := c })[i + 1]?.map Node.value = some ws[i]?
    rw [getElem?_map_set hn ({ n with readers := c }) Node.value rfl (i + 1)]
    exact hval i hi

theorem next_seq {α : Type} {s : Channel α} {ws : List α} (h : SeqState s ws)
    {p : Nat} (hp : p < ws.length) :
    (Receiver.next ⟨p⟩ s).1 = some ws[p]
    ∧ (Receiver.next ⟨p⟩ s).2.1 = ⟨p + 1⟩
    ∧ SeqState (Receiver.next ⟨p⟩ s).2.2 ws := by
  obtain ⟨hlen, hhead, hnext, hval⟩ := h
  have h1 := hnext p (le_of_lt hp)
  rw [if_pos hp] at h1
  obtain ⟨n, hn, hnn⟩ := Option.map_eq_some'.mp h1
  have h2 := hval p hp
  obtain ⟨m, hm, hmv⟩ := Option.map_eq_some'.mp h2
  have hws : ws[p]? = some ws[p] := List.getElem?_eq_getElem hp
  by_cases hr : n.readers = 1
  · have hnx : Receiver.next (⟨p⟩ : Receiver) s =
        (m.value, { current := p + 1 },
          { s with nodes := s.nodes.set p { n with readers := usizeDec n.readers },
                   freed := s.freed ++ [p],
                   tail := if s.tail = some p then some (p + 1) else s.tail }) := by
      simp only [Receiver.next, hn, hnn, hm, if_pos hr]
    rw [hnx]
    refine ⟨by rw [hmv, hws], rfl, ?_⟩
    exact seqState_set_readers ⟨hlen, hhead, hnext, hval⟩ hn _ _ _
  · have hnx : Receiver.next (⟨p⟩ : Receiver) s =
        (m.value, { current := p + 1 },
          { s with nodes := s.nodes.set p { n with readers := usizeDec n.readers } }) := by
      simp only [Receiver.next, hn, hnn, hm, if_neg hr]
    rw [hnx]
    refine ⟨by rw [hmv, hws], rfl, ?_⟩
    exact seqState_set_readers ⟨hlen, hhead, hnext, hval⟩ hn _ _ _

/-- A caught-up receiver (cursor on the head node) gets `none` and changes
nothing at all. -/
theorem next_seq_end {α : Type} {s : Channel α} {ws : List α} (h : SeqState s ws) :
    Receiver.next ⟨ws.length⟩ s = (none, ⟨ws.length⟩, s) := by
  obtain ⟨hlen, hhead, hnext, hval⟩ := h
  have h1 := hnext ws.length le_rfl
  rw [if_neg (lt_irrefl _)] at h1
  obtain ⟨n, hn, hnn⟩ := Option.map_eq_some'.mp h1
  simp only [Receiver.next, hn, hnn]

theorem readN_seq {α : Type} :
    ∀ (k : Nat) {p : Nat} {s : Channel α} {ws : List α}, SeqState s ws →
      p + k ≤ ws.length →
      (readN ⟨p⟩ s k).1 = ((ws.drop p).take k).map some
      ∧ (readN ⟨p⟩ s k).2.1 = ⟨p + k⟩
      ∧ SeqState (readN ⟨p⟩ s k).2.2 ws := by
  intro k
  induction k with
  | zero =>
    intro p s ws h _
    exact ⟨by simp [readN], rfl, h⟩
  | succ k ih =>
    intro p s ws h hpk
    have hp : p < ws.length := by omega
    obtain ⟨ho, hrcv, hst⟩ := next_seq h hp
    have hrec := ih (p := p + 1) hst (by omega)
    simp only [readN]
    rw [ho, hrcv]
    refine ⟨?_, ?_, ?_⟩
    · rw [hrec.1, List.drop_eq_getElem_cons hp, List.take_succ_cons, List.map_cons]
    · rw [hrec.2.1]
      have : p + 1 + k = p + (k + 1) := by omega
      rw [this]
    · exact hrec.2.2

theorem readN_caught {α : Type} :
    ∀ (k : Nat) {s : Channel α} {ws : List α}, SeqState s ws →
      readN ⟨ws.length⟩ s k = (List.replicate k none, ⟨ws.length⟩, s) := by
  intro k
  induction k with
  | zero => intro s ws _; simp [readN]
  | succ k ih =>
    intro s ws h
    simp only [readN, next_seq_end h]
    rw [ih h]
    simp [List.replicate_succ]

theorem seqState_clone {α : Type} {s : Channel α} {ws : List α}
    (h : SeqState s ws) (r : Receiver) :
    (Receiver.clone r s).1 = ⟨ws.length⟩ ∧ SeqState (Receiver.clone r s).2 ws := by
  obtain ⟨hlen, hhead, hnext, hval⟩ := h
  exact ⟨by simp [Receiver.clone, hhead], ⟨hlen, hhead, hnext, hval⟩⟩

theorem seqState_sendAll {α : Type} :
    ∀ (vs : List α) {s : Channel α} {ws : List α}, SeqState s ws →
      SeqState (s.sendAll vs) (ws ++ vs) := by
  intro vs
  induction vs with
  | nil => intro s ws h; simpa [Channel.sendAll] using h
  | cons v vs ih =>
    intro s ws h
    have h2 := ih (seqState_send h v)
    simpa [Channel.sendAll, List.append_assoc] using h2

theorem usize_val : USIZE = 18446744073709551616 := by norm_num [USIZE]

theorem usizeDec_of_pos {m : Nat} (h1 : 1 ≤ m) (h2 : m < USIZE) :
    usizeDec m = m - 1 := by
  unfold usizeDec
  have hU : (0 : Nat) < USIZE := by rw [usize_val]; norm_num
  have he : m + (USIZE - 1) = (m - 1) + USIZE := by omega
  rw [he, Nat.add_mod_right]
  exact Nat.mod_eq_of_lt (by omega)

theorem usizeDec_iter_max :
    ∀ k, k ≤ USIZE - 1 → usizeDec^[k] (USIZE - 1) = USIZE - 1 - k := by
  intro k
  induction k with
  | zero => intro _; rfl
  | succ k ih =>
    intro hk
    have hU : (2 : Nat) ≤ USIZE := by rw [usize_val]; norm_num
    rw [Function.iterate_succ_apply', ih (by omega),
      usizeDec_of_pos (by omega) (by omega)]
    omega

theorem readN_add {α : Type} :
    ∀ (a : Nat) (r : Receiver) (s : Channel α) (b : Nat),
      readN r s (a + b) =
        ((readN r s a).1 ++ (readN (readN r s a).2.1 (readN r s a).2.2 b).1,
          (readN (readN r s a).2.1 (readN r s a).2.2 b).2) := by
  intro a
  induction a with
  | zero =>
    intro r s b
    simp [readN, Nat.zero_add]
  | succ a ih =>
    intro r s b
    have h1 : a + 1 + b = a + b + 1 := by omega
    rw [h1]
    simp only [readN]
    rw [ih]
    simp

/-!
## The claims
-/

/-- C1: on a fresh channel, a single sender sends the values `vs`; the
receiver created together with the channel then yields, over successive
`next` calls, exactly `vs` in send order, followed by `none` on every
further call (any number `k` of them), and once one more value `w` is sent
the following `next` yields `some w`. -/
theorem c1_single_sender_fifo (vs : List Nat) (k : Nat) (w : Nat) :
    (readN (Receiver.new (Channel.new (α := Nat))) (Channel.sendAll Channel.new vs)
        (vs.length + k)).1 = vs.map some ++ List.replicate k none
    ∧ (Receiver.next
        (readN (Receiver.new (Channel.new (α := Nat))) (Channel.sendAll Channel.new vs)
          (vs.length + k)).2.1
        (Channel.send
          (readN (Receiver.new (Channel.new (α := Nat))) (Channel.sendAll Channel.new vs)
            (vs.length + k)).2.2 w)).1 = some w := by
  have hrn : Receiver.new (Channel.new (α := Nat)) = (⟨0⟩ : Receiver) := rfl
  rw [hrn]
  have h0 : SeqState (Channel.sendAll (Channel.new (α := Nat)) vs) vs := by
    simpa using seqState_sendAll vs seqState_new
  obtain ⟨hb1, hb2, hb3⟩ := readN_seq (α := Nat) vs.length (p := 0) h0 (by omega)
  rw [List.drop_zero, List.take_length] at hb1
  rw [Nat.zero_add] at hb2
  rw [readN_add, hb1, hb2, readN_caught k hb3]
  refine ⟨rfl, ?_⟩
  have hsw : SeqState
      (Channel.send (readN (⟨0⟩ : Receiver)
        (Channel.sendAll (Channel.new (α := Nat)) vs) vs.length).2.2 w) (vs ++ [w]) :=
    seqState_send hb3 w
  have hlt : vs.length < (vs ++ [w]).length := by simp
  have hnx := (next_seq hsw hlt).1
  have hval : (vs ++ [w])[vs.length] = w :=
    List.getElem_concat_length vs w vs.length rfl (by simp)
  rw [hval] at hnx
  exact hnx

/-- C2: the claimed exactly-once reclamation fails.  Clone the initial
receiver, send `1`, clone the initial receiver again (the second clone
attaches to node `1`, the current head, without incrementing that node's
`readers` count), send `2`, let the second clone advance once, then tear
the channel down.  Node `1` is freed by the advance (its seeded count `1`
drops to `0` while `tail` still lags at the sentinel, so the tail CAS
fails), and then freed a second time by the teardown walk: the free record
is `[1, 0, 1, 2]`, so the two sent values get three releases in total and
node `1` is released twice. -/
theorem c2_double_free_trace :
    (let s0 := Channel.new (α := Nat)
     let rx := Receiver.new s0
     let c1 := Receiver.clone rx s0
     let s1 := Channel.send c1.2 1
     let c2 := Receiver.clone rx s1
     let s2 := Channel.send c2.2 2
     let adv := Receiver.next c2.1 s2
     let fin := Channel.teardown adv.2.2
     fin.freed = [1, 0, 1, 2] ∧ fin.freed.count 1 = 2 ∧ fin.freed.length = 4) := by
  decide

/-- C3: a fresh channel holds exactly one sentinel node with absent value,
no successor and `readers = 1`, and `head == tail ==` that sentinel; but
the global consumer counter starts at `0`, so it does NOT reflect the one
initial consumer (the comment in `BroadcastChannel::new` says to set it to
`1`; the code sets `0`). -/
theorem c3_fresh_channel_state :
    (Channel.new (α := Nat)).nodes = [{ value := none, next := none, readers := 1 }]
    ∧ (Channel.new (α := Nat)).head = 0
    ∧ (Channel.new (α := Nat)).tail = some 0
    ∧ (Channel.new (α := Nat)).readers = 0 :=
  ⟨rfl, rfl, rfl, rfl⟩

/-- C4: cloning a receiver positions the clone at the current head and
bumps the global consumer counter by one, but it leaves `nodes` — in
particular the start node's `readers` count — completely unchanged,
contrary to the claim.  Concretely, cloning the initial receiver of a
fresh channel leaves the sentinel's count at `1` while the global counter
becomes `1`. -/
theorem c4_clone_leaves_node_count (r : Receiver) (s : Channel Nat) :
    (Receiver.clone r s).1.current = s.head
    ∧ (Receiver.clone r s).2.readers = (s.readers + 1) % 2 ^ 64
    ∧ (Receiver.clone r s).2.nodes = s.nodes
    ∧ (Receiver.clone (Receiver.new (Channel.new (α := Nat))) (Channel.new (α := Nat))).2.readers = 1
    ∧ (Receiver.clone (Receiver.new (Channel.new (α := Nat))) (Channel.new (α := Nat))).2.nodes
        = [{ value := none, next := none, readers := 1 }] :=
  ⟨rfl, rfl, rfl, by decide, rfl⟩

/-- C6: the source has no `Drop` implementation for `Receiver`, so
dropping a receiver performs none of the claimed bookkeeping: no node's
`readers` count is decremented (the fresh channel's sentinel stays at
`1`), nothing is freed and the global consumer counter is untouched. -/
theorem c6_receiver_drop_is_noop :
    (∀ (r : Receiver) (s : Channel Nat), Receiver.dropEffect r s = s)
    ∧ (Receiver.dropEffect (Receiver.new (Channel.new (α := Nat))) (Channel.new (α := Nat))).nodes
        = [{ value := none, next := none, readers := 1 }]
    ∧ (Receiver.dropEffect (Receiver.new (Channel.new (α := Nat))) (Channel.new (α := Nat))).readers = 0
    ∧ (Receiver.dropEffect (Receiver.new (Channel.new (α := Nat))) (Channel.new (α := Nat))).freed = [] :=
  ⟨fun _ _ => rfl, rfl, rfl, rfl⟩

/-- C8: when the node under the receiver's cursor has no successor,
`next` returns `none` and leaves the receiver and the whole channel state
(head, tail, every node, the consumer counter and the free record)
untouched. -/
theorem c8_caught_up_no_change (r : Receiver) (s : Channel Nat) (n : Node Nat)
    (hn : s.nodes[r.current]? = some n) (hnone : n.next = none) :
    Receiver.next r s = (none, r, s) := by
  simp only [Receiver.next, hn, hnone]

theorem c8_caught_up_no_change_witness :
    (Channel.new (α := Nat)).nodes[(Receiver.new (Channel.new (α := Nat))).current]?
        = some { value := none, next := none, readers := 1 }
    ∧ ({ value := none, next := none, readers := 1 } : Node Nat).next = none
    ∧ Receiver.next (Receiver.new (Channel.new (α := Nat))) (Channel.new (α := Nat))
        = (none, Receiver.new (Channel.new (α := Nat)), Channel.new (α := Nat)) :=
  ⟨rfl, rfl,
    c8_caught_up_no_change (Receiver.new (Channel.new (α := Nat))) Channel.new
      { value := none, next := none, readers := 1 } rfl rfl⟩

/-- C7: sending `v` on a channel whose head node has no successor yet (the
case in every sequentially reachable state) allocates a fresh node holding
`some v` whose `readers` count is seeded with the current global consumer
counter, installs it as the new head, links the previous head's successor
pointer to it, and changes nothing else: every other node is untouched,
and `tail`, the consumer counter and the free record are unchanged. -/
theorem c7_send_appends_node (s : Channel Nat) (v : Nat) (n : Node Nat)
    (hn : s.nodes[s.head]? = some n) (hnone : n.next = none) :
    (Channel.send s v).nodes[s.nodes.length]?
        = some { value := some v, next := none, readers := s.readers }
    ∧ (Channel.send s v).head = s.nodes.length
    ∧ (Channel.send s v).nodes[s.head]? = some { n with next := some s.nodes.length }
    ∧ (∀ i, i ≠ s.head → i < s.nodes.length → (Channel.send s v).nodes[i]? = s.nodes[i]?)
    ∧ (Channel.send s v).tail = s.tail
    ∧ (Channel.send s v).readers = s.readers
    ∧ (Channel.send s v).freed = s.freed := by
  obtain ⟨hlt, -⟩ := List.getElem?_eq_some.mp hn
  have hn1 : (s.nodes ++ [({ value := some v, next := none, readers := s.readers } : Node Nat)])[s.head]?
      = some n := by
    rw [List.getElem?_append_left hlt]
    exact hn
  have hsend : Channel.send s v =
      { s with
        nodes := (s.nodes ++ [({ value := some v, next := none, readers := s.readers } : Node Nat)]).set
          s.head { n with next := some s.nodes.length }
        head := s.nodes.length } := by
    simp only [Channel.send, Channel.sendFull, linkStep, hn1, hnone]
  rw [hsend]
  refine ⟨?_, rfl, ?_, ?_, rfl, rfl, rfl⟩
  · show ((s.nodes ++ _).set s.head _)[s.nodes.length]? = _
    rw [List.getElem?_set_ne (by omega), List.getElem?_concat_length]
  · show ((s.nodes ++ _).set s.head _)[s.head]? = _
    rw [List.getElem?_set_self (by rw [List.length_append]; omega)]
  · intro i hne hilt
    show ((s.nodes ++ _).set s.head _)[i]? = _
    rw [List.getElem?_set_ne (Ne.symm hne), List.getElem?_append_left hilt]

theorem c7_send_appends_node_witness :
    (Channel.new (α := Nat)).nodes[(Channel.new (α := Nat)).head]?
        = some { value := none, next := none, readers := 1 }
    ∧ ({ value := none, next := none, readers := 1 } : Node Nat).next = none
    ∧ ((Channel.send (Channel.new (α := Nat)) 5).nodes[(Channel.new (α := Nat)).nodes.length]?
          = some { value := some 5, next := none, readers := (Channel.new (α := Nat)).readers }
        ∧ (Channel.send (Channel.new (α := Nat)) 5).head = (Channel.new (α := Nat)).nodes.length
        ∧ (Channel.send (Channel.new (α := Nat)) 5).nodes[(Channel.new (α := Nat)).head]?
            = some { ({ value := none, next := none, readers := 1 } : Node Nat) with
                next := some (Channel.new (α := Nat)).nodes.length }
        ∧ (∀ i, i ≠ (Channel.new (α := Nat)).head → i < (Channel.new (α := Nat)).nodes.length →
            (Channel.send (Channel.new (α := Nat)) 5).nodes[i]? = (Channel.new (α := Nat)).nodes[i]?)
        ∧ (Channel.send (Channel.new (α := Nat)) 5).tail = (Channel.new (α := Nat)).tail
        ∧ (Channel.send (Channel.new (α := Nat)) 5).readers = (Channel.new (α := Nat)).readers
        ∧ (Channel.send (Channel.new (α := Nat)) 5).freed = (Channel.new (α := Nat)).freed) :=
  ⟨rfl, rfl,
    c7_send_appends_node Channel.new 5 { value := none, next := none, readers := 1 } rfl rfl⟩

/-- A channel state in which the head node's successor pointer has already
been set (to node `1`) by another party — the contingency the send path's
`assert_ne!` is supposed to catch. -/
def presetLinkState : Channel Nat :=
  { nodes := [{ value := none, next := some 1, readers := 1 },
              { value := some 9, next := none, readers := 1 }]
    head := 0
    tail := some 0
    readers := 0
    freed := [] }

/-- C9: the defence does not exist.  When the previous head's successor
pointer is already set to some other node `x` at link time (so the link
CAS from null fails), the `assert_ne!` compares the CAS result `x` with
the freshly allocated node's pointer — which `x` can never equal — so no
panic occurs: the send completes silently, the stale link is left in
place, and the new node is installed as head anyway. -/
theorem c9_failed_link_cas_is_silent (s : Channel Nat) (v : Nat) (n : Node Nat) (x : Nat)
    (hn : s.nodes[s.head]? = some n) (hx : n.next = some x) (hxe : x ≠ s.nodes.length) :
    (Channel.sendFull s v).1 = false
    ∧ (Channel.sendFull s v).2.nodes
        = s.nodes ++ [{ value := some v, next := none, readers := s.readers }]
    ∧ (Channel.sendFull s v).2.nodes[s.head]? = some n
    ∧ (Channel.sendFull s v).2.head = s.nodes.length := by
  obtain ⟨hlt, -⟩ := List.getElem?_eq_some.mp hn
  have hn1 : (s.nodes ++ [({ value := some v, next := none, readers := s.readers } : Node Nat)])[s.head]?
      = some n := by
    rw [List.getElem?_append_left hlt]
    exact hn
  have hfull : Channel.sendFull s v =
      (false,
        { s with
          nodes := s.nodes ++ [({ value := some v, next := none, readers := s.readers } : Node Nat)]
          head := s.nodes.length }) := by
    simp only [Channel.sendFull, linkStep, hn1, hx]
    simp [hxe]
  rw [hfull]
  exact ⟨rfl, rfl, hn1, rfl⟩

theorem c9_failed_link_cas_is_silent_witness :
    presetLinkState.nodes[presetLinkState.head]?
        = some { value := none, next := some 1, readers := 1 }
    ∧ ({ value := none, next := some 1, readers := 1 } : Node Nat).next = some 1
    ∧ (1 : Nat) ≠ presetLinkState.nodes.length
    ∧ ((Channel.sendFull presetLinkState 7).1 = false
        ∧ (Channel.sendFull presetLinkState 7).2.nodes
            = presetLinkState.nodes
              ++ [{ value := some 7, next := none, readers := presetLinkState.readers }]
        ∧ (Channel.sendFull presetLinkState 7).2.nodes[presetLinkState.head]?
            = some { value := none, next := some 1, readers := 1 }
        ∧ (Channel.sendFull presetLinkState 7).2.head = presetLinkState.nodes.length) :=
  ⟨rfl, rfl, by decide,
    c9_failed_link_cas_is_silent presetLinkState 7
      { value := none, next := some 1, readers := 1 } 1 rfl rfl (by decide)⟩

theorem usizeDec_zero : usizeDec 0 = USIZE - 1 := by
  unfold usizeDec
  rw [Nat.zero_add]
  exact Nat.mod_eq_of_lt (by rw [usize_val]; norm_num)

/-- A channel state whose node `0` (with a successor) already has a
`readers` count of `0`: advancing a receiver past it exercises the
wrapping decrement. -/
def wrapState : Channel Nat :=
  { nodes := [{ value := none, next := some 1, readers := 0 },
              { value := some 4, next := none, readers := 0 }]
    head := 1
    tail := some 0
    readers := 0
    freed := [] }

/-- C10: advancing past a node whose `readers` count is already `0`
wraps the count to `2 ^ 64 - 1` (`usize::MAX`), frees nothing and leaves
`tail` where it was; and from `2 ^ 64 - 1` no realistic number of further
decrements can reach the count `1` that triggers a free, so only the
teardown walk can ever reclaim the node. -/
theorem c10_zero_count_wraps (r : Receiver) (s : Channel Nat) (n : Node Nat) (q : Nat)
    (hn : s.nodes[r.current]? = some n) (hq : n.next = some q) (h0 : n.readers = 0) :
    (Receiver.next r s).2.2.nodes[r.current]? = some { n with readers := 2 ^ 64 - 1 }
    ∧ (Receiver.next r s).2.2.freed = s.freed
    ∧ (Receiver.next r s).2.2.tail = s.tail
    ∧ (Receiver.next r s).2.1 = { current := q }
    ∧ (∀ k, k < 2 ^ 64 - 2 → usizeDec^[k] (2 ^ 64 - 1) ≠ 1) := by
  obtain ⟨hlt, -⟩ := List.getElem?_eq_some.mp hn
  have h21 : (Receiver.next r s).2.1 = { current := q } := by
    simp only [Receiver.next, hn, hq]
    rw [if_neg (by rw [h0]; exact Nat.zero_ne_one)]
  have h22 : (Receiver.next r s).2.2 =
      { s with nodes := s.nodes.set r.current { n with readers := usizeDec n.readers } } := by
    simp only [Receiver.next, hn, hq]
    rw [if_neg (by rw [h0]; exact Nat.zero_ne_one)]
  refine ⟨?_, ?_, ?_, ?_, ?_⟩
  · rw [h22]
    show (s.nodes.set r.current { n with readers := usizeDec n.readers })[r.current]? = _
    rw [List.getElem?_set_self hlt, h0, usizeDec_zero, usize_val]
    norm_num
  · rw [h22]
  · rw [h22]
  · rw [h21]
  · intro k hk
    norm_num at hk
    have hklt : k ≤ USIZE - 1 := by rw [usize_val]; omega
    show usizeDec^[k] (USIZE - 1) ≠ 1
    rw [usizeDec_iter_max k hklt, usize_val]
    omega

theorem c10_zero_count_wraps_witness :
    wrapState.nodes[(⟨0⟩ : Receiver).current]?
        = some { value := none, next := some 1, readers := 0 }
    ∧ ({ value := none, next := some 1, readers := 0 } : Node Nat).next = some 1
    ∧ ({ value := none, next := some 1, readers := 0 } : Node Nat).readers = 0
    ∧ ((Receiver.next ⟨0⟩ wrapState).2.2.nodes[(⟨0⟩ : Receiver).current]?
          = some { value := none, next := some 1, readers := 2 ^ 64 - 1 }
        ∧ (Receiver.next ⟨0⟩ wrapState).2.2.freed = wrapState.freed
        ∧ (Receiver.next ⟨0⟩ wrapState).2.2.tail = wrapState.tail
        ∧ (Receiver.next ⟨0⟩ wrapState).2.1 = { current := 1 }
        ∧ (∀ k, k < 2 ^ 64 - 2 → usizeDec^[k] (2 ^ 64 - 1) ≠ 1)) :=
  ⟨rfl, rfl, rfl,
    c10_zero_count_wraps ⟨0⟩ wrapState { value := none, next := some 1, readers := 0 } 1
      rfl rfl rfl⟩

/-- The scenario of the clone-isolation property: a fresh channel, `vs`
sent on it, and the initial receiver having consumed `j` values — the
value of `readN` here bundles the original receiver's outputs, its cursor
and the channel state. -/
def afterBacklog (vs : List Nat) (j : Nat) : List (Option Nat) × Receiver × Channel Nat :=
  readN (Receiver.new (Channel.new (α := Nat))) (Channel.sendAll Channel.new vs) j

/-- The clone (and the channel state after cloning) taken in the
`afterBacklog vs j` scenario. -/
def cloneAfter (vs : List Nat) (j : Nat) : Receiver × Channel Nat :=
  Receiver.clone (afterBacklog vs j).2.1 (afterBacklog vs j).2.2

/-- After the clone, `ws` further values are sent and the clone reads
`ws.length` times. -/
def cloneRun (vs ws : List Nat) (j : Nat) : List (Option Nat) × Receiver × Channel Nat :=
  readN (cloneAfter vs j).1 (Channel.sendAll (cloneAfter vs j).2 ws) ws.length

/-- C5: on a fresh channel send the `K = vs.length` values `vs`, let the
original receiver consume `j ≤ K` of them, then clone it.  The clone's
cursor is the channel's current head (node `vs.length`, the last send),
not the original's cursor (node `j`).  After `ws` is then sent, the clone
yields exactly `ws` (only the values sent after the clone) followed by
`none`, and the original, reading on, yields its remaining backlog
followed by the same values `ws` in the same order. -/
theorem c5_clone_starts_at_head (vs ws : List Nat) (j : Nat) (hj : j ≤ vs.length) :
    (cloneAfter vs j).1.current = (afterBacklog vs j).2.2.head
    ∧ (cloneAfter vs j).1 = { current := vs.length }
    ∧ (afterBacklog vs j).2.1 = { current := j }
    ∧ (cloneRun vs ws j).1 = ws.map some
    ∧ (Receiver.next (cloneRun vs ws j).2.1 (cloneRun vs ws j).2.2).1 = none
    ∧ (readN (afterBacklog vs j).2.1 (cloneRun vs ws j).2.2 (vs.length - j + ws.length)).1
        = (vs.drop j ++ ws).map some := by
  have h0 : SeqState (Channel.sendAll (Channel.new (α := Nat)) vs) vs := by
    simpa using seqState_sendAll vs seqState_new
  obtain ⟨-, ha2, ha3⟩ := readN_seq (α := Nat) j (p := 0) h0 (by omega)
  rw [Nat.zero_add] at ha2
  have ha2' : (afterBacklog vs j).2.1 = (⟨j⟩ : Receiver) := ha2
  have ha3' : SeqState (afterBacklog vs j).2.2 vs := ha3
  obtain ⟨hc1, hc2⟩ := seqState_clone ha3' (afterBacklog vs j).2.1
  have hc1' : (cloneAfter vs j).1 = (⟨vs.length⟩ : Receiver) := hc1
  have hc2' : SeqState (cloneAfter vs j).2 vs := hc2
  have hs2 : SeqState (Channel.sendAll (cloneAfter vs j).2 ws) (vs ++ ws) :=
    seqState_sendAll ws hc2'
  obtain ⟨hr1, hr2, hr3⟩ :=
    readN_seq (α := Nat) ws.length (p := vs.length) hs2 (by simp)
  refine ⟨rfl, hc1', ha2', ?_, ?_, ?_⟩
  · show (readN (cloneAfter vs j).1 (Channel.sendAll (cloneAfter vs j).2 ws) ws.length).1
        = ws.map some
    rw [hc1', hr1, List.drop_left, List.take_length]
  · show (Receiver.next
        (readN (cloneAfter vs j).1 (Channel.sendAll (cloneAfter vs j).2 ws) ws.length).2.1
        (readN (cloneAfter vs j).1 (Channel.sendAll (cloneAfter vs j).2 ws) ws.length).2.2).1
        = none
    rw [hc1', hr2]
    have hlen : vs.length + ws.length = (vs ++ ws).length := (List.length_append vs ws).symm
    rw [hlen, next_seq_end hr3]
  · show (readN (afterBacklog vs j).2.1
        (readN (cloneAfter vs j).1 (Channel.sendAll (cloneAfter vs j).2 ws) ws.length).2.2
        (vs.length - j + ws.length)).1
        = (vs.drop j ++ ws).map some
    rw [ha2', hc1']
    obtain ⟨ho1, -, -⟩ :=
      readN_seq (α := Nat) (vs.length - j + ws.length) (p := j) hr3
        (by simp only [List.length_append]; omega)
    rw [ho1, List.drop_append_of_le_length hj,
      List.take_of_length_le (by simp only [List.length_append, List.length_drop]; omega)]

theorem c5_clone_starts_at_head_witness :
    1 ≤ ([1, 2] : List Nat).length
    ∧ ((cloneAfter [1, 2] 1).1.current = (afterBacklog [1, 2] 1).2.2.head
       ∧ (cloneAfter [1, 2] 1).1 = { current := ([1, 2] : List Nat).length }
       ∧ (afterBacklog [1, 2] 1).2.1 = { current := 1 }
       ∧ (cloneRun [1, 2] [3] 1).1 = ([3] : List Nat).map some
       ∧ (Receiver.next (cloneRun [1, 2] [3] 1).2.1 (cloneRun [1, 2] [3] 1).2.2).1 = none
       ∧ (readN (afterBacklog [1, 2] 1).2.1 (cloneRun [1, 2] [3] 1).2.2
            (([1, 2] : List Nat).length - 1 + ([3] : List Nat).length)).1
           = (([1, 2] : List Nat).drop 1 ++ [3]).map some) :=
  ⟨by decide, c5_clone_starts_at_head [1, 2] [3] 1 (by decide)⟩

end Broadcast
